import Mathlib

/-!
Verification of `apispec.ext.marshmallow.__init__` (the marshmallow plugin of
the apispec repository): a shallow embedding of the schema identity resolver,
the definition registry with nested-schema auto-discovery, and the reference
resolver, together with theorems settling the specification claims.

External collaborators that are not part of the single source file under
verification (the `swagger` conversion module, the host `APISpec` object, and
the marshmallow schema library itself) are modelled from the specification;
each such definition carries a doc comment starting with `Modelled from the
spec:`.  Everything else is translated directly from the source.
-/

namespace Marshmallow

/-- A marshmallow schema instance as the plugin observes it: the class it was
built from (classes are identified by their registered name), the `many`
flag, and the `exclude` / `only` field restrictions.  `exclude` and `only`
are the attribute values stored on the instance. -/
structure SchemaInstance where
  clsName : String
  many : Bool
  exclude : List String
  only : List String
deriving DecidableEq

/-- A marshmallow field as far as the plugin inspects it: a nested-schema
field (its `schema` property, which marshmallow caches, is stored directly),
a `List` field wrapping a container field, or any other (primitive) field. -/
inductive MField where
  | nested (schema : SchemaInstance)
  | listOf (container : MField)
  | primitiveF (kind : String)
deriving DecidableEq

/-- The argument of the definition helper: a schema class or instance. -/
inductive SchemaVal where
  | cls (name : String)
  | inst (i : SchemaInstance)
deriving DecidableEq

/-- Keys of the plugin's `refs` registry.  The key space is heterogeneous:
schema class objects (`kcls`), synthesized strings (`kstr`), and - because
`get_schema_ref` falls through to `type(schema)` for non-schema arguments -
builtin Python types such as `str`, `dict`, `list` (`kpytype`).  Two keys of
different kinds never compare equal, exactly as in Python. -/
inductive SchemaKey where
  | kcls (name : String)
  | kstr (s : String)
  | kpytype (t : String)
deriving DecidableEq

/-- Values appearing in operation metadata and produced by resolution:
JSON-like literals (`jstr`, `jobj`, `jarr`) and embedded schema references
(`jcls`, `jinst`). -/
inductive JVal where
  | jstr (v : String)
  | jobj (entries : List (String × JVal))
  | jarr (items : List JVal)
  | jcls (name : String)
  | jinst (i : SchemaInstance)

/-- The marshmallow class registry: class name to declared fields.  It also
serves as the field table consulted when an instance's bound fields are
computed. -/
abbrev ClassTable := List (String × List (String × MField))

/-- The ambient host/spec context: the optional naming policy
(`spec.schema_name_resolver`), the class table, and the recursion budget of
the modelled converter. -/
structure HostSpec where
  schema_name_resolver : Option (SchemaKey → Option String)
  classTable : ClassTable
  convFuel : Nat

/-- The per-build mutable state of the plugin: the `refs` registry
(`spec.plugins[NAME]['refs']`, a key-to-definition-name map), plus
instrumentation counters observing work: every `schema2jsonschema` call
bumps `conversions`, every naming-policy query bumps `resolverCalls`, and
every `spec.definition` call is appended to `regLog`.  The counters never
influence control flow. -/
structure BuildState where
  refs : List (SchemaKey × String)
  conversions : Nat
  resolverCalls : Nat
  regLog : List (String × SchemaVal)
deriving DecidableEq

/-- The type of the host's `spec.definition` entry point as the discovery
engine calls back into it. -/
abbrev RegisterFn := BuildState → String → SchemaVal → Option BuildState

/-- Association-list lookup, the model of Python `d[k]` / `k in d`. -/
def lookupA {α β : Type} [DecidableEq α] : List (α × β) → α → Option β
  | [], _ => none
  | (a, b) :: t, k => if a = k then some b else lookupA t k

/-- Replace the value stored at `k` (model of `d[k] = v` on an existing key;
dict keys are unique, and the update keeps the key's position). -/
def updateA {α β : Type} [DecidableEq α] (l : List (α × β)) (k : α) (v : β) :
    List (α × β) :=
  l.map (fun p => if p.1 = k then (k, v) else p)

/-- Python dict assignment `d[k] = v`: overwrite in place when present,
append otherwise. -/
def insertAssoc {α β : Type} [DecidableEq α] (l : List (α × β)) (k : α) (v : β) :
    List (α × β) :=
  if (lookupA l k).isSome then updateA l k v else l ++ [(k, v)]

/-- Number of entries stored under key `k`. -/
def countKey {α β : Type} [DecidableEq α] (l : List (α × β)) (k : α) : Nat :=
  (l.filter (fun p => decide (p.1 = k))).length

/-- Modelled from the spec: marshmallow's `Schema.__init__` stores `exclude`
as a set, so two instances built from element-wise equal collections hold
equal sets; the set is modelled canonically as the deduplicated sorted list
of its elements, so that equal sets iterate identically. -/
def canonicalSet (l : List String) : List String :=
  (l.dedup).insertionSort (· ≤ ·)

/-- Modelled from the spec: constructing a schema instance (marshmallow
`Schema(...)` - external to the source file).  `exclude` is stored as a set
(see `canonicalSet`); `only` is stored as given. -/
def mkInstance (clsName : String) (many : Bool) (exclude : List String)
    (only : List String) : SchemaInstance :=
  ⟨clsName, many, canonicalSet exclude, only⟩

/-- Modelled from the spec: instantiating a schema class with no arguments
(`schema()`), which uses marshmallow's defaults `many=False`, `exclude=()`,
`only=()`. -/
def defaultInstance (clsName : String) : SchemaInstance :=
  mkInstance clsName false [] []

/-- Modelled from the spec: the bound `fields` of a schema instance - the
class's declared fields restricted by `only` (when non-empty) and with
`exclude` removed. -/
def SchemaInstance.fieldsOf (ct : ClassTable) (s : SchemaInstance) :
    List (String × MField) :=
  match lookupA ct s.clsName with
  | none => []
  | some fs =>
    let fs1 := if s.only ≠ [] then fs.filter (fun p => s.only.contains p.1) else fs
    fs1.filter (fun p => !(s.exclude.contains p.1))

/-- The view of a helper argument as a runtime value. -/
def SchemaVal.toJVal : SchemaVal → JVal
  | .cls n => .jcls n
  | .inst i => .jinst i

/-- Source lines 37-45: return a schema instance for the given schema
(instance or class); a class is instantiated with defaults. -/
def get_schema_instance : SchemaVal → SchemaInstance
  | .cls n => defaultInstance n
  | .inst i => i

/-- Source lines 58-65 (the `class_name` accumulation for `exclude` inside
`get_schema_ref`): starting from the empty string, when `exclude` is truthy
append `'Without'` and then `'_' + elem` for each excluded element, in the
collection's iteration order. -/
def without_suffix (s : SchemaInstance) : String :=
  if s.exclude ≠ [] then
    List.foldl (fun acc e => acc ++ "_" ++ e) ("" ++ "Without") s.exclude
  else ""

/-- Source lines 58-70: the full `class_name` - the `exclude` part, then,
when `only` is truthy, `'Only'` and `'_' + elem` for each `only` element
appended to it. -/
def instance_class_name (s : SchemaInstance) : String :=
  if s.only ≠ [] then
    List.foldl (fun acc e => acc ++ "_" ++ e) (without_suffix s ++ "Only") s.only
  else without_suffix s

/-- Source lines 48-74, `get_schema_ref`: a class is its own key; an
instance with a non-empty synthesized `class_name` yields the string key
`type(schema).__name__ + class_name`; otherwise the instance's class is the
key.  Non-schema arguments (strings, dicts, lists) fall into the `else`
branch, where `getattr` yields `None` for both restrictions and the result
is `type(schema)` - the builtin `str` / `dict` / `list` type. -/
def get_schema_ref : JVal → SchemaKey
  | .jcls n => .kcls n
  | .jinst s =>
    if instance_class_name s ≠ "" then .kstr (s.clsName ++ instance_class_name s)
    else .kcls s.clsName
  | .jstr _ => .kpytype "str"
  | .jobj _ => .kpytype "dict"
  | .jarr _ => .kpytype "list"

/-- Python truthiness of a registry key: classes and types are truthy,
strings are truthy when non-empty. -/
def SchemaKey.truthy : SchemaKey → Bool
  | .kstr s => !(s == "")
  | _ => true

theorem append_ne_empty_of_left (s t : String) (h : s ≠ "") : s ++ t ≠ "" := by
  intro he
  apply h
  have hd := String.ext_iff.mp he
  rw [String.data_append] at hd
  rcases List.append_eq_nil.mp hd with ⟨h1, -⟩
  exact String.ext h1

theorem append_ne_empty_of_right (s t : String) (h : t ≠ "") : s ++ t ≠ "" := by
  intro he
  apply h
  have hd := String.ext_iff.mp he
  rw [String.data_append] at hd
  rcases List.append_eq_nil.mp hd with ⟨-, h2⟩
  exact String.ext h2

theorem foldl_underscore_shift (l : List String) :
    ∀ s t : String,
      List.foldl (fun acc e => acc ++ "_" ++ e) (s ++ t) l =
        s ++ List.foldl (fun acc e => acc ++ "_" ++ e) t l := by
  induction l with
  | nil => intro s t; rfl
  | cons a as ih =>
    intro s t
    simp only [List.foldl_cons]
    rw [String.append_assoc s t "_", String.append_assoc s (t ++ "_") a]
    exact ih s (t ++ "_" ++ a)

theorem intercalate_go_foldl (as : List String) :
    ∀ a s : String,
      String.intercalate.go a s as =
        List.foldl (fun acc e => acc ++ s ++ e) a as := by
  induction as with
  | nil => intro a s; rfl
  | cons b bs ih =>
    intro a s
    show String.intercalate.go (a ++ s ++ b) s bs = _
    rw [ih]
    rfl

theorem foldl_underscore_intercalate (a : String) (as : List String) (s : String) :
    List.foldl (fun acc e => acc ++ "_" ++ e) s (a :: as) =
      s ++ "_" ++ String.intercalate "_" (a :: as) := by
  show List.foldl (fun acc e => acc ++ "_" ++ e) (s ++ "_" ++ a) as = _
  rw [show String.intercalate "_" (a :: as) = String.intercalate.go a "_" as from rfl,
    intercalate_go_foldl]
  exact foldl_underscore_shift as (s ++ "_") a

/-- Modelled from the spec: the Field Descriptor Mapper together with the
converter's per-field recursion - a primitive field maps to its type
descriptor, a collection field to an array descriptor over its container,
and a nested-schema field to the nested schema's object descriptor.  `fuel`
bounds the recursion through the class table. -/
def fieldProperty (ct : ClassTable) : Nat → MField → JVal
  | 0, _ => .jobj []
  | fuel + 1, f =>
    match f with
    | .primitiveF kind => .jobj [("type", .jstr kind)]
    | .listOf c => .jobj [("type", .jstr "array"), ("items", fieldProperty ct fuel c)]
    | .nested ns => .jobj [("type", .jstr "object"),
        ("properties", .jobj ((ns.fieldsOf ct).map (fun p => (p.1, fieldProperty ct fuel p.2))))]

/-- Modelled from the spec: `swagger.schema2jsonschema` - the
Schema-to-Descriptor Converter, a pure function from a schema instance to an
object-type descriptor over its bound fields in declaration order. -/
def schema2jsonschema (ct : ClassTable) (fuel : Nat) (inst : SchemaInstance) : JVal :=
  .jobj [("type", .jstr "object"),
    ("properties", .jobj ((inst.fieldsOf ct).map (fun p => (p.1, fieldProperty ct fuel p.2))))]

/-- Source lines 102-114: the body of the discovery loop for one nested
field.  `cell` models the field's cached schema object, which the local
`nested_schema` aliases on entry; when `many` is set, `copy.copy` rebinds
`nested_schema` to a fresh copy with `many = False`, leaving the cell
untouched.  The first component of the result is the object the field's
`schema` attribute refers to after the step.  The naming policy is queried
before the copy, exactly as in the source; a falsy policy answer skips
registration without error. -/
def discover_one (sp : HostSpec) (reg : RegisterFn) (st : BuildState)
    (cell : SchemaInstance) (ref : SchemaKey) :
    Option (SchemaInstance × BuildState) :=
  if ref.truthy then
    match lookupA st.refs ref with
    | some _ => some (cell, st)
    | none =>
      match sp.schema_name_resolver with
      | none => none
      | some r =>
        let dn := r ref
        let st1 := { st with resolverCalls := st.resolverCalls + 1 }
        let ns := if cell.many then { cell with many := false } else cell
        match dn with
        | none => some (cell, st1)
        | some s =>
          if s = "" then some (cell, st1)
          else
            match reg st1 s (.inst ns) with
            | none => none
            | some st2 => some (cell, st2)
  else some (cell, st)

/-- Source lines 89-114, the discovery loop over a schema instance's bound
fields: a nested field contributes its cached `schema` object and that
object's identity key; a `List` field whose container is nested would read
`field.schema` - an attribute `List` fields do not have, so the loop raises
`AttributeError` (modelled as failure); every other field leaves the
nested-schema reference `None` and is skipped. -/
def inspect_fields (sp : HostSpec) (reg : RegisterFn) :
    BuildState → List (String × MField) → Option BuildState
  | st, [] => some st
  | st, (_, f) :: rest =>
    match f with
    | .nested ns =>
      match discover_one sp reg st ns (get_schema_ref (.jinst ns)) with
      | none => none
      | some (_, st1) => inspect_fields sp reg st1 rest
    | .listOf c =>
      match c with
      | .nested _ => none
      | _ => inspect_fields sp reg st rest
    | .primitiveF _ => inspect_fields sp reg st rest

/-- Source lines 77-114, `inspect_schema_for_auto_referencing`: the function
asserts that a naming policy is configured and then runs the discovery loop
(the `refs` sub-dict is part of the state from the start in this model). -/
def inspect_schema_for_auto_referencing (sp : HostSpec) (reg : RegisterFn)
    (st : BuildState) (original_schema_instance : SchemaInstance) :
    Option BuildState :=
  match sp.schema_name_resolver with
  | none => none
  | some _ =>
    inspect_fields sp reg st (original_schema_instance.fieldsOf sp.classTable)

/-- Source lines 117-140, `schema_definition_helper`: compute the identity
key and the schema instance, store `refs[key] = name` unconditionally,
convert the schema with `schema2jsonschema`, and - only when a naming
policy is configured - run nested-schema auto-discovery.  There is no
already-registered check on this path. -/
def schema_definition_helper (sp : HostSpec) (reg : RegisterFn) (st : BuildState)
    (name : String) (schema : SchemaVal) : Option (JVal × BuildState) :=
  let schema_ref := get_schema_ref schema.toJVal
  let schema_instance := get_schema_instance schema
  let st1 := { st with refs := insertAssoc st.refs schema_ref name }
  let json_schema := schema2jsonschema sp.classTable sp.convFuel schema_instance
  let st2 := { st1 with conversions := st1.conversions + 1 }
  match sp.schema_name_resolver with
  | some _ =>
    match inspect_schema_for_auto_referencing sp reg st2 schema_instance with
    | none => none
    | some st3 => some (json_schema, st3)
  | none => some (json_schema, st2)

/-- Modelled from the spec: the host `APISpec.definition` entry point - it
records the registration request and invokes the registered definition
helper; `fuel` bounds the recursion through nested-schema discovery, which
calls back into this entry point. -/
def spec_definition (sp : HostSpec) : Nat → RegisterFn
  | 0 => fun _ _ _ => none
  | fuel + 1 => fun st name schema =>
    let st1 := { st with regLog := st.regLog ++ [(name, schema)] }
    match schema_definition_helper sp (spec_definition sp fuel) st1 name schema with
    | none => none
    | some (_, st2) => some st2

theorem get_schema_ref_truthy (v : JVal) : (get_schema_ref v).truthy = true := by
  cases v with
  | jinst s =>
    simp only [get_schema_ref]
    split
    case isTrue h =>
      simp only [SchemaKey.truthy, Bool.not_eq_true', beq_eq_false_iff_ne, ne_eq]
      exact append_ne_empty_of_right _ _ h
    case isFalse h => rfl
  | jstr v => rfl
  | jobj e => rfl
  | jarr i => rfl
  | jcls n => rfl

theorem without_suffix_cons (s : SchemaInstance) (e : String) (es : List String)
    (he : s.exclude = e :: es) :
    without_suffix s = "Without" ++ "_" ++ String.intercalate "_" (e :: es) := by
  unfold without_suffix
  rw [he, if_pos (by simp), foldl_underscore_intercalate,
    show ("" : String) ++ "Without" = "Without" from rfl]

theorem without_suffix_nil (s : SchemaInstance) (he : s.exclude = []) :
    without_suffix s = "" := by
  unfold without_suffix
  rw [he, if_neg (by simp)]

/-- C3: `get_schema_ref` is a pure total function; a class maps to itself; an
instance with non-empty `exclude` maps to the base class name followed by
`"Without"` and the excluded field names each preceded by `"_"` in iteration
order; non-empty `only` gives the same with `"Only"`; with both present the
`exclude` suffix precedes the `only` suffix; with neither, the instance's
class is returned. -/
theorem get_schema_ref_cases (s : SchemaInstance) (n : String) :
    (get_schema_ref (.jcls n) = .kcls n)
    ∧ (s.exclude ≠ [] → s.only = [] →
        get_schema_ref (.jinst s) =
          .kstr (s.clsName ++ "Without" ++ "_" ++ String.intercalate "_" s.exclude))
    ∧ (s.exclude = [] → s.only ≠ [] →
        get_schema_ref (.jinst s) =
          .kstr (s.clsName ++ "Only" ++ "_" ++ String.intercalate "_" s.only))
    ∧ (s.exclude ≠ [] → s.only ≠ [] →
        get_schema_ref (.jinst s) =
          .kstr (s.clsName
            ++ ("Without" ++ "_" ++ String.intercalate "_" s.exclude)
            ++ ("Only" ++ "_" ++ String.intercalate "_" s.only)))
    ∧ (s.exclude = [] → s.only = [] → get_schema_ref (.jinst s) = .kcls s.clsName) := by
  refine ⟨rfl, ?_, ?_, ?_, ?_⟩
  · intro h1 h2
    rcases he : s.exclude with - | ⟨e, es⟩
    · exact absurd he h1
    · have hicn : instance_class_name s =
          "Without" ++ "_" ++ String.intercalate "_" (e :: es) := by
        unfold instance_class_name
        rw [if_neg (by simp [h2]), without_suffix_cons s e es he]
      simp only [get_schema_ref]
      rw [if_pos (by
        rw [hicn]
        exact append_ne_empty_of_left _ _ (by decide)), hicn]
      simp only [String.append_assoc]
  · intro h1 h2
    rcases ho : s.only with - | ⟨o, os⟩
    · exact absurd ho h2
    · have hicn : instance_class_name s =
          "Only" ++ "_" ++ String.intercalate "_" (o :: os) := by
        unfold instance_class_name
        rw [if_pos (by simp [ho]), ho, without_suffix_nil s h1,
          show ("" : String) ++ "Only" = "Only" from rfl,
          foldl_underscore_intercalate]
      simp only [get_schema_ref]
      rw [if_pos (by
        rw [hicn]
        exact append_ne_empty_of_left _ _ (by decide)), hicn]
      simp only [String.append_assoc]
  · intro h1 h2
    rcases he : s.exclude with - | ⟨e, es⟩
    · exact absurd he h1
    rcases ho : s.only with - | ⟨o, os⟩
    · exact absurd ho h2
    have hw := without_suffix_cons s e es he
    have hicn : instance_class_name s =
        (("Without" ++ "_" ++ String.intercalate "_" (e :: es)) ++ "Only")
          ++ "_" ++ String.intercalate "_" (o :: os) := by
      unfold instance_class_name
      rw [if_pos (by simp [ho]), ho, hw, foldl_underscore_intercalate]
    simp only [get_schema_ref]
    rw [if_pos (by
      rw [hicn]
      apply append_ne_empty_of_left
      apply append_ne_empty_of_left
      exact append_ne_empty_of_right _ _ (by decide)), hicn]
    simp only [String.append_assoc]
  · intro h1 h2
    have hicn : instance_class_name s = "" := by
      unfold instance_class_name
      rw [if_neg (by simp [h2]), without_suffix_nil s h1]
    simp only [get_schema_ref]
    rw [if_neg (by rw [hicn]; simp)]

theorem get_schema_ref_cases_witness :
    ((["a", "b"] : List String) ≠ [])
    ∧ get_schema_ref (.jinst ⟨"User", false, ["a", "b"], []⟩)
        = .kstr "UserWithout_a_b" := by
  refine ⟨by decide, ?_⟩
  have h := (get_schema_ref_cases ⟨"User", false, ["a", "b"], []⟩ "X").2.1
    (by decide) rfl
  rw [h]
  decide

/-- C5: two instances of the same class whose `exclude` collections hold the
same field names - in whatever construction order - produce the same
identity key. -/
theorem identity_collapsing (c : String) (m : Bool) (e1 e2 o : List String)
    (h : ∀ x, x ∈ e1 ↔ x ∈ e2) :
    get_schema_ref (.jinst (mkInstance c m e1 o))
      = get_schema_ref (.jinst (mkInstance c m e2 o)) := by
  have hc : canonicalSet e1 = canonicalSet e2 := by
    unfold canonicalSet
    refine List.eq_of_perm_of_sorted ?_
      (List.sorted_insertionSort _ _) (List.sorted_insertionSort _ _)
    refine (List.perm_insertionSort _ _).trans
      (List.Perm.trans ?_ (List.perm_insertionSort _ _).symm)
    refine (List.perm_ext_iff_of_nodup (List.nodup_dedup e1) (List.nodup_dedup e2)).mpr ?_
    intro a
    rw [List.mem_dedup, List.mem_dedup]
    exact h a
  unfold mkInstance
  rw [hc]

theorem identity_collapsing_witness :
    get_schema_ref (.jinst (mkInstance "User" false ["b", "a"] []))
      = get_schema_ref (.jinst (mkInstance "User" false ["a", "b"] [])) :=
  identity_collapsing "User" false ["b", "a"] ["a", "b"] []
    (by intro x; simp [List.mem_cons, or_comm])

/-- C8: when the naming policy returns a falsy value (`None` or the empty
string) for an unregistered nested schema, discovery raises no error and
registers nothing - the registry is untouched and only the policy-call
counter moves, so later references to that schema still miss the registry
and resolve inline. -/
theorem naming_policy_decline (sp : HostSpec) (r : SchemaKey → Option String)
    (reg : RegisterFn) (st : BuildState) (cell : SchemaInstance) (ref : SchemaKey)
    (hr : sp.schema_name_resolver = some r) (ht : ref.truthy = true)
    (hl : lookupA st.refs ref = none)
    (hd : r ref = none ∨ r ref = some "") :
    discover_one sp reg st cell ref =
      some (cell, { st with resolverCalls := st.resolverCalls + 1 }) := by
  rcases hd with h | h <;> simp [discover_one, ht, hl, hr, h]

theorem naming_policy_decline_witness :
    lookupA (⟨[], 0, 0, []⟩ : BuildState).refs (.kcls "B") = none
    ∧ discover_one ⟨some (fun _ => none), [], 2⟩ (fun s _ _ => some s)
        ⟨[], 0, 0, []⟩ ⟨"B", false, [], []⟩ (.kcls "B") =
      some (⟨"B", false, [], []⟩, ⟨[], 0, 1, []⟩) :=
  ⟨rfl, naming_policy_decline ⟨some (fun _ => none), [], 2⟩ (fun _ => none)
    (fun s _ _ => some s) ⟨[], 0, 0, []⟩ ⟨"B", false, [], []⟩ (.kcls "B")
    rfl rfl rfl (Or.inl rfl)⟩

/-- The fixed host context of the double-registration scenario: a naming
policy that always answers, and one schema class `User` with a single
primitive field. -/
def sp1 : HostSpec :=
  ⟨some (fun _ => some "X"), [("User", [("name", .primitiveF "string")])], 2⟩

/-- The empty build state. -/
def st0 : BuildState := ⟨[], 0, 0, []⟩

/-- C1 counterexample: registering `User` a second time does not
short-circuit - after the first call the key is registered and one
conversion has happened, yet the second call performs a second conversion
instead of returning before it. -/
theorem register_twice_reconverts :
    (spec_definition sp1 2 st0 "User" (.cls "User")).map
        (fun s => (s.conversions, lookupA s.refs (.kcls "User"))) =
      some (1, some "User")
    ∧ ((spec_definition sp1 2 st0 "User" (.cls "User")).bind
        (fun s1 => spec_definition sp1 2 s1 "User" (.cls "User"))).map
          (fun s => s.conversions) = some 2 := by
  constructor <;> rfl

/-- C1 amended: the registration entry point itself never short-circuits (a
second call with an already-registered identity key re-runs conversion, as
the concrete double run shows); the short-circuit lives in nested-schema
auto-discovery, where a nested schema whose identity key is already in the
registry is skipped - no conversion, no naming-policy call, no state
change. -/
theorem registration_idempotence_located :
    (∀ (sp : HostSpec) (reg : RegisterFn) (st : BuildState)
        (cell : SchemaInstance) (ref : SchemaKey) (nm : String),
        lookupA st.refs ref = some nm →
        discover_one sp reg st cell ref = some (cell, st))
    ∧ ((spec_definition sp1 2 st0 "User" (.cls "User")).bind
        (fun s1 => spec_definition sp1 2 s1 "User" (.cls "User"))).map
          (fun s => (s.conversions, lookupA s.refs (.kcls "User"))) =
      some (2, some "User") := by
  constructor
  · intro sp reg st cell ref nm hl
    unfold discover_one
    by_cases ht : ref.truthy = true
    · simp [ht, hl]
    · simp [ht]
  · rfl

theorem registration_idempotence_located_witness :
    lookupA [((SchemaKey.kcls "User"), "User")] (.kcls "User") = some "User"
    ∧ discover_one sp1 (fun s _ _ => some s)
        ⟨[(.kcls "User", "User")], 1, 0, []⟩ ⟨"User", false, [], []⟩ (.kcls "User") =
      some (⟨"User", false, [], []⟩, ⟨[(.kcls "User", "User")], 1, 0, []⟩) :=
  ⟨rfl, registration_idempotence_located.1 sp1 (fun s _ _ => some s)
    ⟨[(.kcls "User", "User")], 1, 0, []⟩ ⟨"User", false, [], []⟩ (.kcls "User")
    "User" rfl⟩

/-- C10: discovering an unregistered nested schema whose instance has
`many = True` registers a fresh copy with `many = False` (visible in the
registration log and the inserted identity key), while the field's cached
schema object - the cell threaded through the step - is returned unchanged,
still with `many = True`. -/
theorem discovery_many_copy (sp : HostSpec) (r : SchemaKey → Option String)
    (st : BuildState) (cell : SchemaInstance) (ref : SchemaKey) (dn : String)
    (f : Nat)
    (hr : sp.schema_name_resolver = some r) (ht : ref.truthy = true)
    (hl : lookupA st.refs ref = none)
    (hd : r ref = some dn) (hdn : dn ≠ "") (hm : cell.many = true)
    (hf : SchemaInstance.fieldsOf sp.classTable { cell with many := false } = []) :
    discover_one sp (spec_definition sp (f + 1)) st cell ref =
      some (cell,
        { refs := insertAssoc st.refs
            (get_schema_ref (.jinst { cell with many := false })) dn
          conversions := st.conversions + 1
          resolverCalls := st.resolverCalls + 1
          regLog := st.regLog ++ [(dn, .inst { cell with many := false })] })
    ∧ cell.many = true := by
  refine ⟨?_, hm⟩
  simp only [discover_one, ht, if_true, hl, hr, hd, hm, if_pos, hdn, if_neg,
    ite_true, ite_false]
  simp only [spec_definition, schema_definition_helper,
    inspect_schema_for_auto_referencing, hr, get_schema_instance, hf,
    inspect_fields]
  simp [hdn, SchemaVal.toJVal]

theorem discovery_many_copy_witness :
    (⟨"B", true, [], []⟩ : SchemaInstance).many = true
    ∧ (discover_one ⟨some (fun _ => some "N"), [], 2⟩
          (spec_definition ⟨some (fun _ => some "N"), [], 2⟩ 1)
          ⟨[], 0, 0, []⟩ ⟨"B", true, [], []⟩ (.kcls "B") =
        some (⟨"B", true, [], []⟩,
          { refs := insertAssoc ([] : List (SchemaKey × String))
              (get_schema_ref (.jinst ⟨"B", false, [], []⟩)) "N"
            conversions := 1
            resolverCalls := 1
            regLog := [("N", .inst ⟨"B", false, [], []⟩)] })
      ∧ (⟨"B", true, [], []⟩ : SchemaInstance).many = true) :=
  ⟨rfl, discovery_many_copy ⟨some (fun _ => some "N"), [], 2⟩ (fun _ => some "N")
    ⟨[], 0, 0, []⟩ ⟨"B", true, [], []⟩ (.kcls "B") "N" 0
    rfl rfl rfl rfl (by decide) rfl rfl⟩

/-- The acyclic nesting chain of the discovery scenario: `A` has a nested
field of `B`, `B` has a nested field of `C`, `C` has only a primitive
field. -/
def chainTable : ClassTable :=
  [("A", [("b", .nested ⟨"B", false, [], []⟩)]),
   ("B", [("c", .nested ⟨"C", false, [], []⟩)]),
   ("C", [("x", .primitiveF "integer")])]

/-- C4: registering `A` with a naming policy that answers every query
registers `B` and `C` too - each present in the registry exactly once,
under the policy's name for it. -/
theorem discovery_chain (nb nc : String) (hb : nb ≠ "") (hc : nc ≠ "") :
    ∃ st' : BuildState,
      spec_definition
          ⟨some (fun k => match k with
              | .kcls "B" => some nb
              | .kcls "C" => some nc
              | _ => some "Other"),
            chainTable, 3⟩ 4 st0 "A" (.cls "A") = some st'
      ∧ st'.refs = [(.kcls "A", "A"), (.kcls "B", nb), (.kcls "C", nc)]
      ∧ countKey st'.refs (.kcls "B") = 1
      ∧ countKey st'.refs (.kcls "C") = 1 := by
  refine ⟨⟨[(.kcls "A", "A"), (.kcls "B", nb), (.kcls "C", nc)], 3, 2,
    [("A", .cls "A"), (nb, .inst ⟨"B", false, [], []⟩),
      (nc, .inst ⟨"C", false, [], []⟩)]⟩, ?_, rfl, rfl, rfl⟩
  simp +decide [spec_definition, schema_definition_helper,
    inspect_schema_for_auto_referencing, inspect_fields, discover_one,
    get_schema_ref, get_schema_instance, instance_class_name, without_suffix,
    SchemaVal.toJVal, SchemaInstance.fieldsOf, defaultInstance, mkInstance,
    canonicalSet, chainTable, st0, lookupA, insertAssoc, updateA,
    SchemaKey.truthy, hb, hc]

theorem discovery_chain_witness :
    ("BDef" ≠ "") ∧ ("CDef" ≠ "")
    ∧ ∃ st' : BuildState,
      spec_definition
          ⟨some (fun k => match k with
              | .kcls "B" => some "BDef"
              | .kcls "C" => some "CDef"
              | _ => some "Other"),
            chainTable, 3⟩ 4 st0 "A" (.cls "A") = some st'
      ∧ st'.refs = [(.kcls "A", "A"), (.kcls "B", "BDef"), (.kcls "C", "CDef")]
      ∧ countKey st'.refs (.kcls "B") = 1
      ∧ countKey st'.refs (.kcls "C") = 1 :=
  ⟨by decide, by decide, discovery_chain "BDef" "CDef" (by decide) (by decide)⟩

/-- Source lines 266-271, `resolve_schema_cls`: a schema class is returned
as is, an instance yields its class, and anything else is looked up in the
external marshmallow class registry by name (strings find their class;
other values raise, modelled as `none`). -/
def resolve_schema_cls (sp : HostSpec) : JVal → Option String
  | .jcls n => some n
  | .jinst i => some i.clsName
  | .jstr s => (lookupA sp.classTable s).map (fun _ => s)
  | _ => none

/-- `getattr(schema, 'many', False)`: only schema instances carry the
attribute. -/
def getMany : JVal → Bool
  | .jinst i => i.many
  | _ => false

/-- The array-branch guard of `resolve_schema_dict` (source line 240):
`schema.get('type') == 'array' and 'items' in schema`. -/
def isArrayWithItems (entries : List (String × JVal)) : Bool :=
  (match lookupA entries "type" with
    | some (.jstr s) => s == "array"
    | _ => false)
  && (lookupA entries "items").isSome

/-- The dead fall-back of source lines 250-251 (`schema_ref` is never falsy,
see `get_schema_ref_truthy`): the computed class value would be used as the
key - a class maps to its class key, an instance (the `use_instances` case)
to its own identity key. -/
def keyOfClsVal : JVal → SchemaKey
  | .jcls n => .kcls n
  | v => get_schema_ref v

/-- Source lines 238-263, `resolve_schema_dict`, in state-passing form (the
function reads the registry and never writes it; the conversion counter is
the only state it touches).  A literal mapping that is array-shaped with an
`items` member has only `items` resolved recursively (with `dump` back at
its default, as in the source) and is otherwise returned unchanged.  Other
inputs are classified: the class is computed (`use_instances` keeps an
instance as its own class value), the identity key looked up, and the
result is a `$ref` pointer (array-wrapped for `many` instances) on a hit or
an inline conversion on a miss.  Failures of the external class-registry
lookup propagate. -/
def resolve_schema_dict (sp : HostSpec) :
    Nat → BuildState → JVal → Bool → Bool → Option (JVal × BuildState)
  | fuel, st, schema, _dump, use_instances =>
    match schema with
    | .jobj entries =>
      if isArrayWithItems entries then
        match fuel with
        | 0 => none
        | f + 1 =>
          match resolve_schema_dict sp f st ((lookupA entries "items").getD (.jobj []))
              true use_instances with
          | none => none
          | some (v, st1) => some (.jobj (updateA entries "items" v), st1)
      else some (.jobj entries, st)
    | _ =>
      let scls? : Option JVal :=
        match schema, use_instances with
        | .jinst i, true => some (.jinst i)
        | _, _ => (resolve_schema_cls sp schema).map .jcls
      match scls? with
      | none => none
      | some schema_cls =>
        let schema_ref := get_schema_ref schema
        let schema_ref := if schema_ref.truthy then schema_ref
          else keyOfClsVal schema_cls
        match lookupA st.refs schema_ref with
        | some nm =>
          let ref_schema := JVal.jobj [("$ref", .jstr ("#/definitions/" ++ nm))]
          if getMany schema then
            some (.jobj [("type", .jstr "array"), ("items", ref_schema)], st)
          else some (ref_schema, st)
        | none =>
          let schema1 := match schema with
            | .jinst i => SchemaVal.inst i
            | _ => match schema_cls with
              | .jcls n => SchemaVal.cls n
              | .jinst i => SchemaVal.inst i
              | _ => SchemaVal.cls ""
          some (schema2jsonschema sp.classTable sp.convFuel
              (get_schema_instance schema1),
            { st with conversions := st.conversions + 1 })

/-- The host context of the resolution scenarios: no naming policy, one
schema class `User` with a single primitive field. -/
def spU : HostSpec := ⟨none, [("User", [("name", .primitiveF "string")])], 2⟩

/-- A build state in which `User` is registered under the name `"User"`. -/
def stReg : BuildState := ⟨[(.kcls "User", "User")], 0, 0, []⟩

/-- C2 counterexample: with the `User` class registered under `"User"`,
resolving the registered name string does not produce the pointer
descriptor - the string's identity key is the builtin `str` type, which is
never registered, so the resolver falls back to inline conversion. -/
theorem resolve_name_string_not_ref :
    (resolve_schema_dict spU 1 stReg (.jstr "User") true false).map Prod.fst
      ≠ some (JVal.jobj [("$ref", JVal.jstr "#/definitions/User")]) := by
  have h : (resolve_schema_dict spU 1 stReg (.jstr "User") true false).map Prod.fst
      = some (JVal.jobj [("type", .jstr "object"),
          ("properties", .jobj [("name", .jobj [("type", .jstr "string")])])]) := rfl
  rw [h]
  simp

/-- C2 amended: with schema `S` registered under `"User"`, resolving `S`
given as its class or as an instance yields the `$ref` pointer, and a
`many=True` instance yields the array-wrapped pointer; but the registered
name string does not resolve by reference - its identity key is the builtin
`str` type, so it is resolved through the external class registry and
converted inline. -/
theorem round_trip_reference_amended (st : BuildState) (f : Nat) (d u : Bool)
    (h1 : lookupA st.refs (.kcls "User") = some "User")
    (h2 : lookupA st.refs (.kpytype "str") = none) :
    resolve_schema_dict spU f st (.jcls "User") d u =
      some (.jobj [("$ref", .jstr "#/definitions/User")], st)
    ∧ resolve_schema_dict spU f st (.jinst ⟨"User", false, [], []⟩) d u =
      some (.jobj [("$ref", .jstr "#/definitions/User")], st)
    ∧ resolve_schema_dict spU f st (.jinst ⟨"User", true, [], []⟩) d u =
      some (.jobj [("type", .jstr "array"),
        ("items", .jobj [("$ref", .jstr "#/definitions/User")])], st)
    ∧ resolve_schema_dict spU f st (.jstr "User") d u =
      some (schema2jsonschema spU.classTable spU.convFuel (defaultInstance "User"),
        { st with conversions := st.conversions + 1 }) := by
  refine ⟨?_, ?_, ?_, ?_⟩ <;> cases u <;>
    simp [resolve_schema_dict, resolve_schema_cls, get_schema_ref,
      instance_class_name, without_suffix, SchemaKey.truthy, getMany,
      get_schema_instance, spU, lookupA, SchemaVal.toJVal, h1, h2]

theorem round_trip_reference_amended_witness :
    lookupA stReg.refs (.kcls "User") = some "User"
    ∧ resolve_schema_dict spU 1 stReg (.jcls "User") true false =
        some (.jobj [("$ref", .jstr "#/definitions/User")], stReg)
    ∧ resolve_schema_dict spU 1 stReg (.jinst ⟨"User", true, [], []⟩) true false =
        some (.jobj [("type", .jstr "array"),
          ("items", .jobj [("$ref", .jstr "#/definitions/User")])], stReg) :=
  ⟨rfl,
    (round_trip_reference_amended stReg 1 true false rfl rfl).1,
    (round_trip_reference_amended stReg 1 true false rfl rfl).2.2.1⟩

/-- C6: resolving a schema (instance or class) whose identity key is not in
the registry falls back to a fully inline object descriptor - the converted
schema, whose descriptor carries `type: object` - and the registry's ref map
after the call is the one before it; no entry is created. -/
theorem inline_fallback (sp : HostSpec) (st : BuildState) (f : Nat) (d u : Bool)
    (i : SchemaInstance) (n : String)
    (hi : lookupA st.refs (get_schema_ref (.jinst i)) = none)
    (hn : lookupA st.refs (.kcls n) = none) :
    (resolve_schema_dict sp f st (.jinst i) d u =
        some (schema2jsonschema sp.classTable sp.convFuel i,
          { st with conversions := st.conversions + 1 })
      ∧ (resolve_schema_dict sp f st (.jinst i) d u).map (fun p => p.2.refs) =
          some st.refs
      ∧ (match schema2jsonschema sp.classTable sp.convFuel i with
          | .jobj es => lookupA es "type"
          | _ => none) = some (.jstr "object"))
    ∧ (resolve_schema_dict sp f st (.jcls n) d u =
        some (schema2jsonschema sp.classTable sp.convFuel (defaultInstance n),
          { st with conversions := st.conversions + 1 })
      ∧ (resolve_schema_dict sp f st (.jcls n) d u).map (fun p => p.2.refs) =
          some st.refs) := by
  have ht := get_schema_ref_truthy (.jinst i)
  have e1 : resolve_schema_dict sp f st (.jinst i) d u =
      some (schema2jsonschema sp.classTable sp.convFuel i,
        { st with conversions := st.conversions + 1 }) := by
    cases u <;>
      simp [resolve_schema_dict, resolve_schema_cls, get_schema_instance,
        getMany, ht, hi]
  have e2 : resolve_schema_dict sp f st (.jcls n) d u =
      some (schema2jsonschema sp.classTable sp.convFuel (defaultInstance n),
        { st with conversions := st.conversions + 1 }) := by
    cases u <;>
      simp [resolve_schema_dict, resolve_schema_cls, get_schema_instance,
        getMany, get_schema_ref, SchemaKey.truthy, hn]
  exact ⟨⟨e1, by rw [e1]; rfl, rfl⟩, e2, by rw [e2]; rfl⟩

theorem inline_fallback_witness :
    lookupA st0.refs (get_schema_ref (.jinst ⟨"X", false, [], []⟩)) = none
    ∧ resolve_schema_dict spU 1 st0 (.jinst ⟨"X", false, [], []⟩) true false =
        some (schema2jsonschema spU.classTable spU.convFuel ⟨"X", false, [], []⟩,
          ⟨[], 1, 0, []⟩)
    ∧ (resolve_schema_dict spU 1 st0 (.jcls "Y") true false).map
        (fun p => p.2.refs) = some st0.refs :=
  ⟨rfl,
    (inline_fallback spU st0 1 true false ⟨"X", false, [], []⟩ "Y" rfl rfl).1.1,
    (inline_fallback spU st0 1 true false ⟨"X", false, [], []⟩ "Y" rfl rfl).2.2⟩

theorem lookupA_updateA_ne {α β : Type} [DecidableEq α]
    (l : List (α × β)) (ki k : α) (v : β) (h : k ≠ ki) :
    lookupA (updateA l ki v) k = lookupA l k := by
  induction l with
  | nil => rfl
  | cons p t ih =>
    by_cases hp : p.1 = ki
    · simp only [updateA, List.map_cons, if_pos hp]
      show lookupA ((ki, v) :: updateA t ki v) k = lookupA (p :: t) k
      have hk : ¬(ki = k) := fun he => h he.symm
      have hpk : ¬(p.1 = k) := fun he => h (hp ▸ he).symm
      simp only [lookupA, if_neg hk, if_neg hpk]
      exact ih
    · simp only [updateA, List.map_cons, if_neg hp]
      show lookupA (p :: updateA t ki v) k = lookupA (p :: t) k
      rcases p with ⟨a, b⟩
      simp only [lookupA]
      by_cases ha : a = k
      · simp [ha]
      · simp only [if_neg ha]
        exact ih

theorem resolve_schema_dict_jobj (sp : HostSpec) (f : Nat) (st : BuildState)
    (entries : List (String × JVal)) (d u : Bool) :
    resolve_schema_dict sp f st (.jobj entries) d u =
      if isArrayWithItems entries = true then
        match f with
        | 0 => none
        | Nat.succ f1 =>
          match resolve_schema_dict sp f1 st
              ((lookupA entries "items").getD (.jobj [])) true u with
          | none => none
          | some (v, st1) => some (.jobj (updateA entries "items" v), st1)
      else some (.jobj entries, st) := by
  cases f <;> rfl

theorem resolve_schema_dict_jobj_succ (sp : HostSpec) (f : Nat) (st : BuildState)
    (entries : List (String × JVal)) (d u : Bool) :
    resolve_schema_dict sp (f + 1) st (.jobj entries) d u =
      if isArrayWithItems entries = true then
        match resolve_schema_dict sp f st
            ((lookupA entries "items").getD (.jobj [])) true u with
        | none => none
        | some (v, st1) => some (.jobj (updateA entries "items" v), st1)
      else some (.jobj entries, st) := rfl

/-- C7: a literal descriptor mapping that is array-shaped with an `items`
member has exactly its `items` member replaced by the recursive resolution -
every member under a different key, `type` included, reads back unchanged -
and any other literal mapping is returned as it is, with the state passed
through untouched. -/
theorem array_items_passthrough (sp : HostSpec) (st st1 : BuildState)
    (f : Nat) (d u : Bool) (entries : List (String × JVal)) (v : JVal) :
    (isArrayWithItems entries = true →
      resolve_schema_dict sp f st ((lookupA entries "items").getD (.jobj []))
          true u = some (v, st1) →
      resolve_schema_dict sp (f + 1) st (.jobj entries) d u =
        some (.jobj (updateA entries "items" v), st1)
      ∧ ∀ k : String, k ≠ "items" →
          lookupA (updateA entries "items" v) k = lookupA entries k)
    ∧ (isArrayWithItems entries = false →
      resolve_schema_dict sp f st (.jobj entries) d u =
        some (.jobj entries, st)) := by
  constructor
  · intro ha hrec
    refine ⟨?_, fun k hk => lookupA_updateA_ne entries "items" k v hk⟩
    rw [resolve_schema_dict_jobj_succ, ha]
    simp [hrec]
  · intro ha
    rw [resolve_schema_dict_jobj, ha]
    simp

theorem array_items_passthrough_witness :
    isArrayWithItems [("type", .jstr "array"), ("items", .jcls "User")] = true
    ∧ resolve_schema_dict spU 1 stReg
        ((lookupA [("type", JVal.jstr "array"), ("items", JVal.jcls "User")]
          "items").getD (.jobj [])) true false =
        some (.jobj [("$ref", .jstr "#/definitions/User")], stReg)
    ∧ resolve_schema_dict spU 2 stReg
        (.jobj [("type", .jstr "array"), ("items", .jcls "User")]) true false =
      some (.jobj [("type", .jstr "array"),
        ("items", .jobj [("$ref", .jstr "#/definitions/User")])], stReg) := by
  refine ⟨rfl, rfl, ?_⟩
  have h := (array_items_passthrough spU stReg stReg 1 true false
    [("type", .jstr "array"), ("items", .jcls "User")]
    (.jobj [("$ref", .jstr "#/definitions/User")])).1 rfl rfl
  exact h.1.trans (by rfl)

/-- Modelled from the spec: `swagger.schema2parameters` - expands a schema
class's fields into individual parameter descriptors at the parameter's
declared location. -/
def schema2parameters (ct : ClassTable) (clsName : String) (defaultIn : JVal) :
    List JVal :=
  ((defaultInstance clsName).fieldsOf ct).map
    (fun p => .jobj [("name", .jstr p.1), ("in", defaultIn)])

/-- Source lines 225-235, `resolve_parameters`: a parameter whose `schema`
member exists and is not a dict has its class resolved (failures of the
external class-registry lookup propagate; every class the registry returns
is a schema subclass) and, when the parameter declares `in`, is replaced by
the expanded per-field parameter list; every other parameter - including
those with a non-dict schema but no `in` - passes through unchanged.
Non-mapping parameters have no `.get`, so the loop raises (modelled as
failure). -/
def resolve_parameters (sp : HostSpec) : List JVal → Option (List JVal)
  | [] => some []
  | p :: rest =>
    match p with
    | .jobj pe =>
      match (lookupA pe "schema").getD (.jobj []) with
      | .jobj _ =>
        match resolve_parameters sp rest with
        | none => none
        | some r => some (p :: r)
      | sv =>
        match resolve_schema_cls sp sv with
        | none => none
        | some clsName =>
          match lookupA pe "in" with
          | some inv =>
            match resolve_parameters sp rest with
            | none => none
            | some r => some (schema2parameters sp.classTable clsName inv ++ r)
          | none =>
            match resolve_parameters sp rest with
            | none => none
            | some r => some (p :: r)
    | _ => none

/-- Source lines 220-222, the body of the responses loop for one response
value: a mapping with a `schema` member has it replaced by the resolved
descriptor; a mapping without one is untouched.  On non-mapping values the
Python `in` test either raises (`TypeError` for classes and instances, and
for the subsequent item assignment when a string contains `'schema'` as a
substring or a list contains it as an element) or finds nothing and skips. -/
def resolve_response (sp : HostSpec) (f : Nat) (st : BuildState) (response : JVal) :
    Option (JVal × BuildState) :=
  match response with
  | .jobj re =>
    match lookupA re "schema" with
    | some sv =>
      match resolve_schema_dict sp f st sv true false with
      | none => none
      | some (v, st1) => some (.jobj (updateA re "schema" v), st1)
    | none => some (response, st)
  | .jstr s =>
    if (s.splitOn "schema").length ≥ 2 then none else some (response, st)
  | .jarr items =>
    if items.any (fun w => match w with | .jstr x => x == "schema" | _ => false)
    then none else some (response, st)
  | _ => none

/-- The responses loop of source lines 220-222 over a responses mapping, in
insertion order, threading state. -/
def resolve_responses (sp : HostSpec) (f : Nat) :
    BuildState → List (String × JVal) → Option (List (String × JVal) × BuildState)
  | st, [] => some ([], st)
  | st, (k, r) :: rest =>
    match resolve_response sp f st r with
    | none => none
    | some (r1, st1) =>
      match resolve_responses sp f st1 rest with
      | none => none
      | some (rest1, st2) => some ((k, r1) :: rest1, st2)

/-- Source lines 218-222, the body of `schema_operation_resolver` for one
mapping-valued operation: rewrite `parameters` when present (iterating a
dict yields its keys, an empty string yields nothing, and other non-list
values raise), then rewrite each response's `schema` member in place. -/
def process_operation (sp : HostSpec) (f : Nat) (st : BuildState)
    (oe : List (String × JVal)) : Option (List (String × JVal) × BuildState) :=
  match (match lookupA oe "parameters" with
    | none => some oe
    | some (.jarr ps) =>
      match resolve_parameters sp ps with
      | none => none
      | some ps1 => some (updateA oe "parameters" (.jarr ps1))
    | some (.jobj ents) =>
      match resolve_parameters sp (ents.map (fun e => JVal.jstr e.1)) with
      | none => none
      | some ps1 => some (updateA oe "parameters" (.jarr ps1))
    | some (.jstr s) =>
      if s = "" then some (updateA oe "parameters" (.jarr [])) else none
    | some _ => none) with
  | none => none
  | some oe1 =>
    match lookupA oe1 "responses" with
    | none => some (oe1, st)
    | some (.jobj rs) =>
      match resolve_responses sp f st rs with
      | none => none
      | some (rs1, st1) => some (updateA oe1 "responses" (.jobj rs1), st1)
    | some _ => none

/-- Source lines 214-222, `schema_operation_resolver`: iterate the
operations mapping in order; an entry whose value is not a mapping is
skipped by `continue`; mapping-valued entries are rewritten in place. -/
def schema_operation_resolver (sp : HostSpec) (f : Nat) :
    BuildState → List (String × JVal) → Option (List (String × JVal) × BuildState)
  | st, [] => some ([], st)
  | st, (k, op) :: rest =>
    match op with
    | .jobj oe =>
      match process_operation sp f st oe with
      | none => none
      | some (oe1, st1) =>
        match schema_operation_resolver sp f st1 rest with
        | none => none
        | some (rest1, st2) => some ((k, .jobj oe1) :: rest1, st2)
    | _ =>
      match schema_operation_resolver sp f st rest with
      | none => none
      | some (rest1, st1) => some ((k, op) :: rest1, st1)

/-- C9: an operations entry whose value is not a mapping contributes no
error and is carried over unchanged - the rewriter on the extended mapping
is exactly the rewriter on the remaining entries with the malformed entry
reinserted untouched, whatever the rest contains. -/
theorem operation_skip_nonmapping (sp : HostSpec) (f : Nat) (st : BuildState)
    (k : String) (v : JVal) (rest : List (String × JVal))
    (hv : ∀ oe : List (String × JVal), v ≠ .jobj oe) :
    schema_operation_resolver sp f st ((k, v) :: rest) =
      (schema_operation_resolver sp f st rest).map
        (fun p => ((k, v) :: p.1, p.2)) := by
  cases v with
  | jobj oe => exact absurd rfl (hv oe)
  | jstr s =>
    cases h : schema_operation_resolver sp f st rest with
    | none => simp [schema_operation_resolver, h]
    | some p => rcases p with ⟨r1, s1⟩; simp [schema_operation_resolver, h]
  | jarr items =>
    cases h : schema_operation_resolver sp f st rest with
    | none => simp [schema_operation_resolver, h]
    | some p => rcases p with ⟨r1, s1⟩; simp [schema_operation_resolver, h]
  | jcls n =>
    cases h : schema_operation_resolver sp f st rest with
    | none => simp [schema_operation_resolver, h]
    | some p => rcases p with ⟨r1, s1⟩; simp [schema_operation_resolver, h]
  | jinst i =>
    cases h : schema_operation_resolver sp f st rest with
    | none => simp [schema_operation_resolver, h]
    | some p => rcases p with ⟨r1, s1⟩; simp [schema_operation_resolver, h]

theorem operation_skip_nonmapping_witness :
    schema_operation_resolver spU 1 st0 [("get", .jstr "oops")] =
      some ([("get", .jstr "oops")], st0) := by
  rw [operation_skip_nonmapping spU 1 st0 "get" (.jstr "oops") []
    (fun oe => by simp)]
  rfl
